import Mathlib

/-!
Verification of the hierarchical namespace store `hapi_server.py`.

The Python program keeps a single-rooted tree of `Node` objects (id, name,
parent back-reference, name-sorted children, cached depth) inside a `Storage`
container holding a global id index `_nodes`, the `_root` reference and the
incrementally maintained pre-order id list `_preorder`.

Shallow embedding conventions:
* Python objects referenced through mutable pointers become an id-indexed
  association list `List (String × Node)`; `parent` and `children` store ids.
  The auxiliary `_children_by_id` dict is maintained by the source strictly in
  lockstep with `children` (same keys), so the embedding keeps only the
  ordered id list and performs membership checks on it.
* Unbounded loops / recursion (`while item:`, `set_depth`, the descent to the
  last pre-order child) take a fuel argument; fuel exhaustion, like any raised
  Python exception, is encoded by an `Option`-`none` outcome.  Mutating
  operations return `(Option Bool) × Storage`: `some b` is a normal boolean
  return and the second component is the state, which on `none` (an uncaught
  exception) is the state at the point the exception was raised.
* Python truthiness of optional arguments is made explicit (`pyFalsyStr`,
  `pyTruthyList`, `pyTruthyInt`), and Python list primitives (`index`,
  `remove`, clamping `insert`, slice assignment) are embedded as the `py*`
  functions below.
-/

namespace Hapi

/-- A tree node: `_id`, `_name`, sorted children (as ids), parent (as id) and
the cached `_depth` of `hapi_server.py`'s `Node` class. -/
structure Node where
  id : String
  name : String
  children : List String
  parent : Option String
  depth : Int
deriving DecidableEq

/-- `Node(nid, name)`: fresh node, no children, no parent, depth 0. -/
def Node.mk0 (nid nm : String) : Node :=
  { id := nid, name := nm, children := [], parent := none, depth := 0 }

/-- The id-indexed node table standing for the Python `Storage._nodes` dict
(and for the object graph it holds). -/
abbrev NMap := List (String × Node)

/-- Dict lookup `self._nodes[k]` / `k in self._nodes`. -/
def lookupNode : NMap → String → Option Node
  | [], _ => none
  | (k, v) :: rest, nid => if k = nid then some v else lookupNode rest nid

/-- Dict store of a fresh key, `self._nodes[node.id()] = node`. -/
def insertNode (m : NMap) (nid : String) (v : Node) : NMap :=
  m ++ [(nid, v)]

/-- In-place mutation of the node object registered under `nid`. -/
def updateNode : NMap → String → (Node → Node) → NMap
  | [], _, _ => []
  | (k, v) :: rest, nid, f =>
      if k = nid then (k, f v) :: updateNode rest nid f
      else (k, v) :: updateNode rest nid f

/-- Dict removal `self._nodes.pop(nid)`. -/
def removeNode : NMap → String → NMap
  | [], _ => []
  | (k, v) :: rest, nid => if k = nid then removeNode rest nid else (k, v) :: removeNode rest nid

/-- `list.index(x)` — `some` index of the first occurrence, `none` is the
`ValueError` raise. -/
def pyIndex : List String → String → Option Nat
  | [], _ => none
  | x :: xs, y => if x = y then some 0 else (pyIndex xs y).map (· + 1)

/-- `list.remove(x)` — drops the first occurrence, `none` is the `ValueError`
raise. -/
def pyRemove : List String → String → Option (List String)
  | [], _ => none
  | x :: xs, y => if x = y then some xs else (pyRemove xs y).map (x :: ·)

/-- `list.insert(i, a)`: insert before position `i`, appending when `i` is at
or beyond the end (Python clamps, it never raises here). -/
def pyInsert : List String → Nat → String → List String
  | l, 0, a => a :: l
  | [], _ + 1, a => [a]
  | x :: xs, i + 1, a => x :: pyInsert xs i a

/-- `l[i:j]` for `0 ≤ i ≤ j`. -/
def pySlice (l : List String) (i j : Nat) : List String :=
  (l.take j).drop i

/-- `l[i:j] = repl`: replace the segment `[i, j)` by `repl`. -/
def pySliceAssign (l : List String) (i j : Nat) (repl : List String) : List String :=
  l.take i ++ repl ++ l.drop j

/-- Helper of `pyDedup`: keep each key the first time it is seen. -/
def pyDedupAux : List String → List String → List String
  | [], _ => []
  | x :: xs, seen => if x ∈ seen then pyDedupAux xs seen else x :: pyDedupAux xs (x :: seen)

/-- `list(OrderedDict.fromkeys(xs))`: de-duplication keeping first
occurrences. -/
def pyDedup (l : List String) : List String :=
  pyDedupAux l []

/-- Truthiness of an optional string argument (`not parent` is true for both
an absent argument and the empty string). -/
def pyFalsyStr : Option String → Bool
  | none => true
  | some s => s = ""

/-- Truthiness of an optional list argument (`if ids:`). -/
def pyTruthyList : Option (List String) → Bool
  | none => false
  | some l => ¬ l.isEmpty

/-- Truthiness of an optional integer argument (`if min_depth:` — both an
absent argument and `0` are falsy). -/
def pyTruthyInt : Option Int → Bool
  | none => false
  | some n => ¬ n = 0

/-- Lexicographic code-point comparison of char lists (Python's `<` on
strings; kept executable by kernel reduction, unlike `String.lt`'s
well-founded `ltb`). -/
def strLtB : List Char → List Char → Bool
  | [], [] => false
  | [], _ :: _ => true
  | _ :: _, [] => false
  | a :: as, b :: bs =>
      if a.toNat < b.toNat then true
      else if b.toNat < a.toNat then false
      else strLtB as bs

/-- Python `a < b` on strings. -/
def pyStrLt (a b : String) : Bool :=
  strLtB a.data b.data

/-! ## Node operations -/

/-- Name of the child object registered under `cid` (sibling comparisons in
the source go through `__lt__`/`__eq__`, i.e. through names). -/
def childName (m : NMap) (cid : String) : String :=
  ((lookupNode m cid).map Node.name).getD ""

/-- Insert an id into a name-sorted child list, after any equal names (the
stable position `append`-then-`sort()` produces for the appended element). -/
def insertByName (m : NMap) : List String → String → List String
  | [], cid => [cid]
  | c :: rest, cid =>
      if pyStrLt (childName m cid) (childName m c) then cid :: c :: rest
      else c :: insertByName m rest cid

/-- `self.children.append(node); self.children.sort()`: a stable
insertion sort by name (`Node.__lt__` compares names only). -/
def sortByName (m : NMap) (cs : List String) : List String :=
  cs.foldl (insertByName m) []

/-- `node in self.children`: membership via `Node.__eq__`, i.e. by name. -/
def hasChildNamed (m : NMap) (cs : List String) (nm : String) : Bool :=
  cs.any (fun c => childName m c = nm)

/-- `self.children.remove(node)`: removes the first child whose name equals
`nm` (`list.remove` uses `__eq__`, which compares names). -/
def removeFirstByName (m : NMap) : List String → String → List String
  | [], _ => []
  | c :: rest, nm => if childName m c = nm then rest else c :: removeFirstByName m rest nm

/-- `children.index(self)`: index of the first child whose name matches
(`list.index` uses `__eq__`). -/
def indexByName (m : NMap) (cs : List String) (nm : String) : Option Nat :=
  pyIndex (cs.map (childName m)) nm

/-- `Node.set_depth`, rendered as a fueled depth-first work list: each stack
entry is a pending `node.set_depth(d)` call; the node's depth is set and its
children are pushed with depth `d + 1`.  Fuel exhaustion (`none`) stands for
Python's unbounded recursion on a cyclic child graph; an id without a live
table entry is skipped (an out-of-table Python object is not representable
here, and no reachable state produces one). -/
def setDepthAux : Nat → NMap → List (String × Int) → Option NMap
  | _, m, [] => some m
  | 0, _, _ :: _ => none
  | fuel + 1, m, (nid, d) :: stack =>
      match lookupNode m nid with
      | none => setDepthAux fuel m stack
      | some node =>
          setDepthAux fuel (updateNode m nid (fun n => { n with depth := d }))
            ((node.children.map (fun c => (c, d + 1))) ++ stack)

/-- `node.set_depth(d)` on the node registered under `nid`. -/
def setDepth (fuel : Nat) (m : NMap) (nid : String) (d : Int) : Option NMap :=
  setDepthAux fuel m [(nid, d)]

/-- `Node.add_child` on the parent registered under `pid` and the child
registered under `cid` (callers register the child object in the table
before the call; the source reaches the same table state by storing the
already-mutated object afterwards).  Returns the boolean result and the
updated table; `none` is a raise / an unrepresentable dangling reference. -/
def addChild (fuel : Nat) (m : NMap) (pid cid : String) : Option (Bool × NMap) :=
  match lookupNode m pid, lookupNode m cid with
  | some parent, some child =>
      if hasChildNamed m parent.children child.name then some (false, m)
      else
        match setDepth fuel
            (updateNode
              (updateNode m pid
                (fun p => { p with children := sortByName m (p.children ++ [cid]) }))
              cid (fun c => { c with parent := some pid }))
            cid (parent.depth + 1) with
        | none => none
        | some m3 => some (true, m3)
  | _, _ => none

/-- `Node.remove_child(nid, force)` on the parent registered under `pid`.
The `nid not in self._children_by_id` test is the membership test on the
(lockstep) ordered child list. -/
def removeChild (m : NMap) (pid cid : String) (force : Bool) : Option (Bool × NMap) :=
  match lookupNode m pid with
  | none => none
  | some parent =>
      if cid ∈ parent.children then
        match lookupNode m cid with
        | none => none
        | some child =>
            if ¬ child.children.isEmpty ∧ ¬ force then some (false, m)
            else
              some (true, updateNode m pid
                (fun p => { p with children := removeFirstByName m p.children child.name }))
      else some (false, m)

/-- `Node.last_preorder_child`: walk to the last child until a leaf. -/
def lastPreorderChild (fuel : Nat) (m : NMap) (node : Node) : Option Node :=
  match fuel with
  | 0 => none
  | fuel + 1 =>
      match node.children.getLast? with
      | none => some node
      | some cid =>
          match lookupNode m cid with
          | none => none
          | some c => lastPreorderChild fuel m c

/-- `Node.preorder_predecessor`.  `some none` is the Python `None` return for
a parentless node; the outer `none` is a raise or an unrepresentable dangling
reference. -/
def preorderPredecessor (fuel : Nat) (m : NMap) (node : Node) : Option (Option Node) :=
  match node.parent with
  | none => some none
  | some pid =>
      match lookupNode m pid with
      | none => none
      | some parent =>
          match indexByName m parent.children node.name with
          | none => none
          | some idx =>
              if idx = 0 then some (some parent)
              else
                match parent.children.get? (idx - 1) with
                | none => none
                | some sid =>
                    match lookupNode m sid with
                    | none => none
                    | some sib =>
                        match lastPreorderChild fuel m sib with
                        | none => none
                        | some pred => some (some pred)

/-! ## Storage -/

/-- `Storage`: the id index `_nodes`, the `_root` reference (as an id) and the
cached pre-order id list `_preorder`. -/
structure Storage where
  nodes : NMap
  root : Option String
  preorder : List String
deriving DecidableEq

/-- `Storage.__init__`. -/
def Storage.init : Storage :=
  { nodes := [], root := none, preorder := [] }

/-- Fuel budget for one operation: strictly more than the number of live
nodes, enough for every walk over an acyclic store. -/
def Storage.fuel (s : Storage) : Nat :=
  s.nodes.length + 1

/-- `Storage.add(node, parent)`.  `node?` is `None` or a node object; the
`parent` id is optional (and `""` is falsy, like an absent argument). -/
def Storage.add (s : Storage) (node? : Option Node) (parent : Option String) :
    Option Bool × Storage :=
  match node? with
  | none => (some false, s)
  | some node =>
      if (lookupNode s.nodes node.id).isSome then (some false, s)
      else if pyFalsyStr parent then
        if ¬ s.nodes.isEmpty then (some false, s)
        else
          let m1 := insertNode s.nodes node.id node
          match setDepth s.fuel m1 node.id 0 with
          | none => (none, { s with nodes := m1 })
          | some m2 =>
              (some true,
                { nodes := m2, root := some node.id, preorder := s.preorder ++ [node.id] })
      else
        let p := parent.getD ""
        match lookupNode s.nodes p with
        | none => (some false, s)
        | some _ =>
            -- the source mutates the free node object in `add_child` and
            -- registers it on success; the embedding registers it first so
            -- `add_child` can reach it through the table, discarding the
            -- table when `add_child` returns `False` (in which case the
            -- source also left no trace of the node)
            let m1 := insertNode s.nodes node.id node
            match addChild s.fuel m1 p node.id with
            | none => (none, s)
            | some (false, _) => (some false, s)
            | some (true, m2) =>
                match lookupNode m2 node.id with
                | none => (none, { s with nodes := m2 })
                | some node' =>
                    match preorderPredecessor s.fuel m2 node' with
                    | none => (none, { s with nodes := m2 })
                    | some none => (none, { s with nodes := m2 })
                    | some (some pred) =>
                        match pyIndex s.preorder pred.id with
                        | none => (none, { s with nodes := m2 })
                        | some i =>
                            (some true,
                              { s with
                                nodes := m2
                                preorder := pyInsert s.preorder (i + 1) node.id })

/-- `Storage.delete(nid)`. -/
def Storage.delete (s : Storage) (nid : String) : Option Bool × Storage :=
  match lookupNode s.nodes nid with
  | none => (some false, s)
  | some node =>
      match node.parent with
      | some pid =>
          match removeChild s.nodes pid nid false with
          | none => (none, s)
          | some (false, _) => (some false, s)
          | some (true, m1) =>
              let m2 := removeNode m1 nid
              match pyRemove s.preorder nid with
              | none => (none, { s with nodes := m2 })
              | some pre => (some true, { s with nodes := m2, preorder := pre })
      | none =>
          -- deleting the root: allowed only for a singleton store; note that
          -- `_root` is left pointing at the removed node
          if s.nodes.length = 1 then (some true, { s with nodes := [], preorder := [] })
          else (some false, s)

/-- The in-place rotation of `Storage.move`: swap the adjacent spans `[a, b)`
and `[b, c)` of the list, buffering the shorter span (both source branches
produce the same recomposition). -/
def pySpanSwap (l : List String) (a b c : Nat) : List String :=
  let span1 := b - a
  let span2 := c - b
  if span1 < span2 then
    let tmp := pySlice l a b
    let l1 := pySliceAssign l a (a + span2) (pySlice l b c)
    pySliceAssign l1 (c - span1) c tmp
  else
    let tmp := pySlice l b c
    let l1 := pySliceAssign l (a + span2) c (pySlice l a b)
    pySliceAssign l1 a (a + span2) tmp

/-- The pre-order re-splice at the end of `Storage.move` (source lines
212-239), entered with the re-parented table `m2`, the updated target object
`target'`, its new predecessor `pred` and the already computed insertion
position `newPos`.  In the internal-node branch, a `newPos` that falls at or
inside the moved block matches neither guard, so `a`, `b`, `c` are never
bound and the `span1, span2 = b - a, c - b` line raises `NameError`
(rendered as the `none` outcome; the subtractions and comparisons are on
naturals, which agrees with Python on every state where the block indices
are ordered, as they are in every reachable state). -/
def Storage.moveSplice (s : Storage) (m2 : NMap) (nid : String) (target' _pred : Node)
    (newPos : Nat) : Option Bool × Storage :=
  if target'.children.isEmpty then
    match pyRemove s.preorder nid with
    | none => (none, { s with nodes := m2 })
    | some l => (some true, { s with nodes := m2, preorder := pyInsert l newPos nid })
  else
    match lastPreorderChild s.fuel m2 target' with
    | none => (none, { s with nodes := m2 })
    | some lastN =>
        match pyIndex s.preorder nid, pyIndex s.preorder lastN.id with
        | some rs, some li =>
            -- `range_size` is `li - rs + 1`, written inline below
            if newPos > rs + (li - rs + 1) then
              (some true,
                { s with
                  nodes := m2
                  preorder := pySpanSwap s.preorder rs (rs + (li - rs + 1)) newPos })
            else if newPos < rs then
              (some true,
                { s with
                  nodes := m2
                  preorder := pySpanSwap s.preorder newPos rs (rs + (li - rs + 1)) })
            else (none, { s with nodes := m2 })
        | _, _ => (none, { s with nodes := m2 })

/-- The `while item:` ancestor walk of `Storage.move`, starting from a parent
reference: `some true` when a node with id `nid` is encountered, `some false`
when the chain ends, `none` for a raise / nontermination. -/
def walkHits : Nat → NMap → Option String → String → Option Bool
  | _, _, none, _ => some false
  | 0, _, some _, _ => none
  | fuel + 1, m, some itemId, nid =>
      if itemId = nid then some true
      else
        match lookupNode m itemId with
        | none => none
        | some item => walkHits fuel m item.parent nid

/-- `Storage.move(nid, to)`. -/
def Storage.move (s : Storage) (nid toId : String) : Option Bool × Storage :=
  if (lookupNode s.nodes nid).isNone ∨ (lookupNode s.nodes toId).isNone ∨ nid = toId then
    (some false, s)
  else
    match lookupNode s.nodes nid, lookupNode s.nodes toId with
    | some target, some toNode =>
        match target.parent with
        | none => (some false, s)
        | some oldParentId =>
            if oldParentId = toId then (some false, s)
            else
              match walkHits s.fuel s.nodes toNode.parent nid with
              | none => (none, s)
              | some true => (some false, s)
              | some false =>
                  match addChild s.fuel s.nodes toId nid with
                  | none => (none, s)
                  | some (false, _) => (some false, s)
                  | some (true, m1) =>
                      match removeChild m1 oldParentId nid true with
                      | none => (none, { s with nodes := m1 })
                      | some (_, m2) =>
                          match lookupNode m2 nid with
                          | none => (none, { s with nodes := m2 })
                          | some target' =>
                              match preorderPredecessor s.fuel m2 target' with
                              | none => (none, { s with nodes := m2 })
                              | some none => (none, { s with nodes := m2 })
                              | some (some pred) =>
                                  match pyIndex s.preorder pred.id with
                                  | none => (none, { s with nodes := m2 })
                                  | some pi =>
                                      Storage.moveSplice s m2 nid target' pred (pi + 1)
    | _, _ => (some false, s)

/-! ## Query -/

/-- Look up every id of a list in the node table (the list comprehensions of
`query` index `_nodes` in their condition or body); `none` is a `KeyError`. -/
def lookupAll (m : NMap) : List String → Option (List Node)
  | [] => some []
  | nid :: rest =>
      match lookupNode m nid with
      | none => none
      | some n => (lookupAll m rest).map (n :: ·)

/-- The per-root body of `query`'s `for root in roots:` loop: the root's
contiguous pre-order slice (the whole list for THE root) filtered by the
absolute depth window `[minDepth + root.depth, maxDepth + root.depth]`. -/
def Storage.queryRoot (s : Storage) (minDepth maxDepth : Int) (root : Node) :
    Option (List Node) :=
  let dmin := minDepth + root.depth
  let dmax := maxDepth + root.depth
  match s.root with
  | none => none
  | some rootId =>
      if root.id = rootId then
        match lookupAll s.nodes s.preorder with
        | none => none
        | some all => some (all.filter (fun n => dmin ≤ n.depth ∧ n.depth ≤ dmax))
      else
        match pyIndex s.preorder root.id with
        | none => none
        | some start =>
            match lastPreorderChild s.fuel s.nodes root with
            | none => none
            | some lastN =>
                match pyIndex s.preorder lastN.id with
                | none => none
                | some li =>
                    match lookupAll s.nodes (pySlice s.preorder start (li + 1)) with
                    | none => none
                    | some sub =>
                        some (sub.filter (fun n => dmin ≤ n.depth ∧ n.depth ≤ dmax))

/-- `query`'s root loop: concatenate the per-root results in caller order. -/
def Storage.queryRoots (s : Storage) (minDepth maxDepth : Int) :
    List Node → List Node → Option (List Node)
  | [], acc => some acc
  | r :: rest, acc =>
      match s.queryRoot minDepth maxDepth r with
      | none => none
      | some sub => Storage.queryRoots s minDepth maxDepth rest (acc ++ sub)

/-- `Storage.query(ids, names, roots, min_depth, max_depth)`. -/
def Storage.query (s : Storage) (ids names roots : Option (List String))
    (minD maxD : Option Int) : Option (List Node) :=
  if s.nodes.isEmpty ∨ (pyTruthyInt minD ∧ pyTruthyInt maxD ∧ maxD.getD 0 < minD.getD 0) then
    some []
  else
    let minDepth : Int := if pyTruthyInt minD then minD.getD 0 else 0
    let maxDepth : Int := if pyTruthyInt maxD then maxD.getD 0 else (s.preorder.length : Int)
    let namesD := pyDedup (names.getD [])
    if pyTruthyList ids then
      let idsF := s.preorder.filter (fun nid => nid ∈ pyDedup (ids.getD []))
      match lookupAll s.nodes idsF with
      | none => none
      | some result =>
          some (if ¬ pyTruthyList names then result
                else result.filter (fun n => n.name ∈ namesD))
    else if pyTruthyList names then
      match lookupAll s.nodes s.preorder with
      | none => none
      | some all => some (all.filter (fun n => n.name ∈ namesD))
    else
      let rootNodes? : Option (List Node) :=
        if pyTruthyList roots then
          some ((pyDedup (roots.getD [])).filterMap (fun nid => lookupNode s.nodes nid))
        else
          match s.root with
          | none => none
          | some r =>
              match lookupNode s.nodes r with
              | none => none
              | some n => some [n]
      match rootNodes? with
      | none => none
      | some rootNodes => s.queryRoots minDepth maxDepth rootNodes []

/-! ## The line dispatcher of `main`

One loop iteration after `json.load` succeeded: the key-count check, the
`globals()[func]` lookup and the handler call.  Only `json.load` is inside a
`try`, so any exception past that point is uncaught and terminates the
process; this outcome is the `none` result of `processRequest`. -/

/-- A JSON value as the handlers see it. -/
inductive PyVal where
  | str : String → PyVal
  | int : Int → PyVal
  | list : List PyVal → PyVal
  | null : PyVal

/-- Python truthiness of a JSON value. -/
def PyVal.truthy : PyVal → Bool
  | .str s => ¬ s = ""
  | .int n => ¬ n = 0
  | .list l => ¬ l.isEmpty
  | .null => false

/-- A request parameter object. -/
abbrev Body := List (String × PyVal)

/-- `attr in body` / `body[attr]` / `body.get(attr)`. -/
def bodyGet : Body → String → Option PyVal
  | [], _ => none
  | (k, v) :: rest, a => if k = a then some v else bodyGet rest a

/-- A serialized reply: `{"ok": bool}` or `{"nodes": [...]}` where each node
record is `(id, name, parent_id)` with `""` for the root's parent. -/
inductive Resp where
  | ok : Bool → Resp
  | nodes : List (String × String × String) → Resp
deriving DecidableEq

/-- The `add_node` handler.  A truthy non-string `id`/`name` would make the
source build a node keyed by a non-string, which the string-keyed table
cannot represent; no claim depends on that corner. -/
def add_node (stg : Storage) (body : Body) : Option Bool × Storage :=
  match bodyGet body "id", bodyGet body "name" with
  | some vid, some vname =>
      if ¬ vid.truthy ∨ ¬ vname.truthy then (some false, stg)
      else
        match vid, vname with
        | .str i, .str n =>
            (match bodyGet body "parent_id" with
             | none => stg.add (some (Node.mk0 i n)) none
             | some .null => stg.add (some (Node.mk0 i n)) none
             | some (.str p) => stg.add (some (Node.mk0 i n)) (some p)
             | some _ => (none, stg))
        | _, _ => (none, stg)
  | _, _ => (some false, stg)

/-- The `delete_node` handler (a truthy non-string id is never a key of the
string-keyed `_nodes`, so `Storage.delete` returns `False` on it). -/
def delete_node (stg : Storage) (body : Body) : Option Bool × Storage :=
  match bodyGet body "id" with
  | none => (some false, stg)
  | some v =>
      if ¬ v.truthy then (some false, stg)
      else
        match v with
        | .str i => stg.delete i
        | _ => (some false, stg)

/-- The `move_node` handler (as for `delete_node`, truthy non-string ids fail
the `nid not in self._nodes` membership test). -/
def move_node (stg : Storage) (body : Body) : Option Bool × Storage :=
  match bodyGet body "id", bodyGet body "new_parent_id" with
  | some vid, some vp =>
      if ¬ vid.truthy ∨ ¬ vp.truthy then (some false, stg)
      else
        match vid, vp with
        | .str i, .str p => stg.move i p
        | _, _ => (some false, stg)
  | _, _ => (some false, stg)

/-- Read an optional list-of-strings query argument; non-string lists are
outside the embedded value space. -/
def asStrList : Option PyVal → Option (Option (List String))
  | none => some none
  | some .null => some none
  | some (.list l) =>
      (l.mapM (fun v => match v with | PyVal.str s => some s | _ => none)).map some
  | some _ => none

/-- Read an optional integer query argument. -/
def asInt : Option PyVal → Option (Option Int)
  | none => some none
  | some .null => some none
  | some (.int n) => some (some n)
  | some _ => none

/-- The `query` handler with its projection of nodes to
`{id, name, parent_id}` records. -/
def queryHandler (stg : Storage) (body : Body) : Option Resp × Storage :=
  match asStrList (bodyGet body "ids"), asStrList (bodyGet body "names"),
      asStrList (bodyGet body "root_ids"),
      asInt (bodyGet body "min_depth"), asInt (bodyGet body "max_depth") with
  | some ids, some names, some roots, some minD, some maxD =>
      match stg.query ids names roots minD maxD with
      | none => (none, stg)
      | some l => (some (.nodes (l.map (fun n => (n.id, n.name, n.parent.getD "")))), stg)
  | _, _, _, _, _ => (none, stg)

/-- The `globals()[func]` lookup: only the four handler names resolve to a
callable that accepts `(stg, body)`.  Any other key raises — `KeyError` for
an unbound name, `TypeError` for the other module globals (`Node`, `Storage`,
`sys`, ..., none of which is callable with these two arguments) — so it maps
to `none`. -/
def globalsHandler (func : String) : Option (Storage → Body → Option Resp × Storage) :=
  if func = "add_node" then some (fun stg body => ((add_node stg body).1.map Resp.ok, (add_node stg body).2))
  else if func = "delete_node" then
    some (fun stg body => ((delete_node stg body).1.map Resp.ok, (delete_node stg body).2))
  else if func = "move_node" then
    some (fun stg body => ((move_node stg body).1.map Resp.ok, (move_node stg body).2))
  else if func = "query" then some queryHandler
  else none

/-- Outcome of one loop iteration on a line that parsed as a JSON object:
either it is skipped as malformed (the loop continues) or a reply is
written. -/
inductive StepResult where
  | skipped : StepResult
  | replied : Resp → StepResult
deriving DecidableEq

/-- One iteration of `main`'s loop on a parsed request object (unparsable
lines are already absorbed by the `try` around `json.load` and skipped).
`none` means an uncaught exception: the process terminates. -/
def processRequest (stg : Storage) (req : List (String × Body)) :
    Option (StepResult × Storage) :=
  if req.length = 0 ∨ 1 < req.length then some (.skipped, stg)
  else
    match req.head? with
    | none => some (.skipped, stg)
    | some (func, body) =>
        match globalsHandler func with
        | none => none
        | some h =>
            match h stg body with
            | (none, _) => none
            | (some r, s) => some (.replied r, s)

/-! ## Reference semantics and state predicates -/

/-- Reference pre-order: depth-first walk over a work list, each node before
its children, children in stored order (which the operations keep sorted by
name).  `none` on a dangling id or when fuel runs out. -/
def preorderWalkAux : Nat → NMap → List String → Option (List String)
  | _, _, [] => some []
  | 0, _, _ :: _ => none
  | fuel + 1, m, nid :: stack =>
      match lookupNode m nid with
      | none => none
      | some n => (preorderWalkAux fuel m (n.children ++ stack)).map (nid :: ·)

/-- The pre-order listing of the live tree re-derived by a full recursive
walk from the root (the reference the cached `_preorder` is measured
against). -/
def Storage.preorderWalk (s : Storage) : Option (List String) :=
  match s.root with
  | none => some []
  | some r => preorderWalkAux s.fuel s.nodes [r]

/-- One step up the parent chain (`item = item.parent` on ids): `none` when
the reference is absent or the node is parentless. -/
def parentStep (m : NMap) : Option String → Option String
  | none => none
  | some x =>
      match lookupNode m x with
      | none => none
      | some n => n.parent

/-- `k` steps up the parent chain. -/
def chainIter (m : NMap) : Nat → Option String → Option String
  | 0, p => p
  | k + 1, p => chainIter m k (parentStep m p)

/-- The parent field of the entry under `x` (`none` when there is no entry,
`some p` when the entry's parent reference is `p`). -/
def parentsOf (m : NMap) (x : String) : Option (Option String) :=
  (lookupNode m x).map Node.parent

/-- Acyclicity of the parent relation: every upward parent chain terminates.
A parent cycle would give some node an infinite chain, so this is exactly
"no cycles". -/
def Grounded (m : NMap) : Prop :=
  ∀ x : String, ∃ k, chainIter m k (some x) = none

/-- Single-rootedness: every parentless node in the table is the node the
`_root` reference designates. -/
def SingleRooted (s : Storage) : Prop :=
  ∀ x n, lookupNode s.nodes x = some n → n.parent = none → s.root = some x

/-! ## Concrete stores used by the counterexamples and witnesses -/

/-- A store holding only the root `"1"` (name `"r"`). -/
def single1 : Storage :=
  (Storage.init.add (some (Node.mk0 "1" "r")) none).2

/-- Root `"1"` with the three leaves `"2"`/`"a"`, `"3"`/`"b"`, `"4"`/`"c"`. -/
def flat4 : Storage :=
  ((((Storage.init.add (some (Node.mk0 "1" "r")) none).2.add
      (some (Node.mk0 "2" "a")) (some "1")).2.add
      (some (Node.mk0 "3" "b")) (some "1")).2.add
      (some (Node.mk0 "4" "c")) (some "1")).2

/-- The chain `"1" → "2" → "3" → "4"` (names `"r"`, `"a"`, `"b"`, `"c"`). -/
def chain4 : Storage :=
  ((((Storage.init.add (some (Node.mk0 "1" "r")) none).2.add
      (some (Node.mk0 "2" "a")) (some "1")).2.add
      (some (Node.mk0 "3" "b")) (some "2")).2.add
      (some (Node.mk0 "4" "c")) (some "3")).2

/-- The chain `"1" → "2" → "3"` (names `"r"`, `"a"`, `"b"`). -/
def chain3 : Storage :=
  (((Storage.init.add (some (Node.mk0 "1" "r")) none).2.add
      (some (Node.mk0 "2" "a")) (some "1")).2.add
      (some (Node.mk0 "3" "b")) (some "2")).2

/-- The node objects of `chain3` (root `"1"` with child `"2"`, which has
child `"3"`). -/
def n1c : Node :=
  { id := "1", name := "r", children := ["2"], parent := none, depth := 0 }

/-- Second node of `chain3`. -/
def n2c : Node :=
  { id := "2", name := "a", children := ["3"], parent := some "1", depth := 1 }

/-- Third node of `chain3`. -/
def n3c : Node :=
  { id := "3", name := "b", children := [], parent := some "2", depth := 2 }

/-! ## Theorems -/

/-- C1.  Refuted on the code: in the store with root `"1"` and leaves
`"2" < "3" < "4"`, the move of leaf `"2"` under `"3"` returns `True`, yet the
cached pre-order list is `["1", "3", "4", "2"]` while the recursive walk of
the live tree gives `["1", "3", "2", "4"]` — the moved leaf does not sit
immediately after its pre-order predecessor `"3"` (the leaf re-splice
computes the insertion index before the removal shifts it). -/
theorem c1_move_leaf_breaks_preorder_cache :
    (flat4.move "2" "3").1 = some true ∧
    (flat4.move "2" "3").2.preorder = ["1", "3", "4", "2"] ∧
    (flat4.move "2" "3").2.preorderWalk = some ["1", "3", "2", "4"] ∧
    ¬ (flat4.move "2" "3").2.preorder = ["1", "3", "2", "4"] :=
  ⟨rfl, rfl, rfl, by decide⟩

/-- C2.  Refuted on the code: on the chain `"1" → "2" → "3" → "4"`, moving
`"3"` under `"1"` re-parents `"3"` and then raises `NameError` in the
pre-order re-splice (the new position equals the block start, so neither
rotation guard binds `a, b, c`), leaving the mutation applied: the failing
invocation does not leave the storage unchanged. -/
theorem c2_move_raises_after_partial_mutation :
    (chain4.move "3" "1").1 = none ∧
    (lookupNode chain4.nodes "3").map Node.parent = some (some "2") ∧
    (lookupNode (chain4.move "3" "1").2.nodes "3").map Node.parent = some (some "1") ∧
    ¬ (chain4.move "3" "1").2 = chain4 :=
  ⟨rfl, rfl, rfl, by decide⟩

/-- C4.  Refuted on the code: with the single-node store, a query for
`ids = ["1"]` returns the node when no depth bounds are given, but returns
the empty list when `min_depth = 2, max_depth = 1` — the
`max_depth < min_depth` early return precedes the `ids` branch, so the depth
bounds are not ignored there. -/
theorem c4_depth_guard_reaches_ids_branch :
    single1.query (some ["1"]) none none none none = some [Node.mk0 "1" "r"] ∧
    single1.query (some ["1"]) none none (some 2) (some 1) = some [] ∧
    ¬ single1.query (some ["1"]) none none (some 2) (some 1)
        = single1.query (some ["1"]) none none none none :=
  ⟨rfl, rfl, by decide⟩

/-- C5, counterexample.  With the single-node store, a query whose `roots`
list holds only the unknown id `"z"` returns the empty list, not the result
of the same query with `roots` omitted (which returns the whole tree): there
is no fallback to the global root once a non-empty `roots` argument was
given. -/
theorem c5_counterexample_no_root_fallback :
    single1.query none none (some ["z"]) none none = some [] ∧
    single1.query none none none none none = some [Node.mk0 "1" "r"] ∧
    ¬ single1.query none none (some ["z"]) none none
        = single1.query none none none none none :=
  ⟨rfl, rfl, by decide⟩

/-- C6, counterexample.  Deleting the sole node `"1"` of the single-node
store succeeds and empties the id index and the pre-order list, but the
`_root` reference still designates `"1"` — it is not emptied as the claim
states. -/
theorem c6_counterexample_root_reference_kept :
    (single1.delete "1").1 = some true ∧
    (single1.delete "1").2.nodes = [] ∧
    (single1.delete "1").2.preorder = [] ∧
    (single1.delete "1").2.root = some "1" ∧
    ¬ (single1.delete "1").2.root = none :=
  ⟨rfl, rfl, rfl, rfl, by decide⟩

/-- C8.  Refuted on the code: a parsed line whose single key `"nop"` is not
an operation makes `globals()[func]` raise an uncaught `KeyError` and the
process terminates (`none`), and even the well-formed move request
`{"move_node": {"id": "3", "new_parent_id": "1"}}` on the chain store
terminates the process through the move `NameError` — the dispatch step does
not always complete. -/
theorem c8_dispatch_can_kill_process :
    processRequest single1 [("nop", [])] = none ∧
    processRequest chain4
      [("move_node", [("id", PyVal.str "3"), ("new_parent_id", PyVal.str "1")])] = none :=
  ⟨rfl, rfl⟩

/-- C9.  On an empty store, `query` returns the empty list for every
combination of arguments: the emptiness guard returns before any argument
is inspected. -/
theorem c9_query_on_empty_store (s : Storage) (h : s.nodes = [])
    (ids names roots : Option (List String)) (mn mx : Option Int) :
    s.query ids names roots mn mx = some [] := by
  unfold Storage.query
  rw [h]
  simp [List.isEmpty]

/-- Witness for C9 at a concrete empty store and concrete arguments. -/
theorem c9_query_on_empty_store_witness :
    Storage.init.nodes = [] ∧
    Storage.init.query (some ["1"]) (some ["a"]) (some ["2"]) (some 1) (some 5) = some [] :=
  ⟨rfl, c9_query_on_empty_store Storage.init rfl (some ["1"]) (some ["a"]) (some ["2"])
    (some 1) (some 5)⟩

/-- De-duplication only keeps elements of the original list. -/
theorem mem_pyDedupAux {x : String} : ∀ {l seen : List String},
    x ∈ pyDedupAux l seen → x ∈ l := by
  intro l
  induction l with
  | nil => intro seen h; simp [pyDedupAux] at h
  | cons y ys ih =>
      intro seen h
      unfold pyDedupAux at h
      by_cases hy : y ∈ seen
      · simp only [if_pos hy] at h
        exact List.mem_cons_of_mem y (ih h)
      · simp only [if_neg hy] at h
        rcases List.mem_cons.mp h with h1 | h2
        · exact h1 ▸ List.mem_cons_self x ys
        · exact List.mem_cons_of_mem y (ih h2)

/-- De-duplication only keeps elements of the original list. -/
theorem mem_pyDedup {x : String} {l : List String} (h : x ∈ pyDedup l) : x ∈ l :=
  mem_pyDedupAux h

/-- C5, amended.  When `query` is called without truthy `ids` and `names`
but with a non-empty `roots` list in which every id is unknown, the unknown
ids are dropped and the result is the empty list, for every depth window —
there is no fallback to the global root. -/
theorem c5_all_unknown_roots_empty (s : Storage) (rs : List String)
    (hrs : rs.isEmpty = false) (hunk : ∀ r ∈ rs, lookupNode s.nodes r = none)
    (ids names : Option (List String))
    (hids : pyTruthyList ids = false) (hnames : pyTruthyList names = false)
    (mn mx : Option Int) :
    s.query ids names (some rs) mn mx = some [] := by
  have htr : pyTruthyList (some rs) = true := by
    simp [pyTruthyList, hrs]
  have hfm : (pyDedup rs).filterMap (fun nid => lookupNode s.nodes nid) = [] := by
    rw [List.filterMap_eq_nil_iff]
    intro a ha
    exact hunk a (mem_pyDedup ha)
  unfold Storage.query
  split
  · rfl
  · simp only [hids, hnames, htr, Bool.false_eq_true, if_false, if_true, Option.getD, hfm]
    rfl

/-- Witness for C5's amended claim: the single-node store with the unknown
root id `"z"`. -/
theorem c5_all_unknown_roots_empty_witness :
    single1.query none none (some ["z"]) none none = some [] :=
  c5_all_unknown_roots_empty single1 ["z"] rfl
    (by intro r hr; rcases List.mem_singleton.mp hr with rfl; rfl)
    none none rfl rfl none none

/-- C6, amended.  Deleting a parentless (root) node succeeds exactly when it
is the only node in the store, and on that success the id index and the
pre-order list are emptied while the `_root` reference is left as it was. -/
theorem c6_delete_root (s : Storage) (nid : String) (node : Node)
    (hlook : lookupNode s.nodes nid = some node) (hroot : node.parent = none) :
    ((s.delete nid).1 = some true ↔ s.nodes.length = 1) ∧
    (s.nodes.length = 1 →
      s.delete nid = (some true, { s with nodes := [], preorder := [] })) := by
  simp only [Storage.delete, hlook, hroot]
  by_cases h1 : s.nodes.length = 1
  · simp [h1]
  · simp [h1]

/-- Witness for C6's amended claim at the single-node store. -/
theorem c6_delete_root_witness :
    ((single1.delete "1").1 = some true ↔ single1.nodes.length = 1) ∧
    (single1.nodes.length = 1 →
      single1.delete "1" = (some true, { single1 with nodes := [], preorder := [] })) :=
  c6_delete_root single1 "1" (Node.mk0 "1" "r") rfl rfl

/-- `set_depth` on a registered leaf just sets that node's depth. -/
theorem setDepth_leaf (fuel : Nat) (m : NMap) (nid : String) (d : Int) (node : Node)
    (hl : lookupNode m nid = some node) (hch : node.children = []) :
    setDepth (fuel + 1) m nid d
      = some (updateNode m nid (fun n => { n with depth := d })) := by
  unfold setDepth setDepthAux
  simp only [hl, hch, List.map_nil, List.nil_append]
  cases fuel <;> simp [setDepthAux]

/-- C7.  `add` with no parent succeeds exactly on an empty store (given a
non-null node with a fresh id, as built by the dispatcher); on success the
node becomes the root with depth `0` and its id is appended to the (then
empty) pre-order list, and on a non-empty store the call fails and changes
nothing — so a second parentless node can never be added. -/
theorem c7_add_without_parent (s : Storage) (n : Node)
    (hfresh : lookupNode s.nodes n.id = none) (hch : n.children = []) :
    ((s.add (some n) none).1 = some true ↔ s.nodes = []) ∧
    (¬ s.nodes = [] → s.add (some n) none = (some false, s)) ∧
    (s.nodes = [] →
      s.add (some n) none =
        (some true,
          { nodes := [(n.id, { n with depth := 0 })],
            root := some n.id,
            preorder := s.preorder ++ [n.id] })) := by
  by_cases hs : s.nodes = []
  · have hie : s.nodes.isEmpty = true := by simp [hs]
    have hfuel : s.fuel = 1 := by simp [Storage.fuel, hs]
    have hins : insertNode s.nodes n.id n = [(n.id, n)] := by simp [insertNode, hs]
    have hsd : setDepth 1 [(n.id, n)] n.id 0 = some [(n.id, { n with depth := 0 })] := by
      have h0 := setDepth_leaf 0 [(n.id, n)] n.id 0 n (by simp [lookupNode]) hch
      simpa [updateNode] using h0
    have hadd : s.add (some n) none =
        (some true,
          { nodes := [(n.id, { n with depth := 0 })],
            root := some n.id, preorder := s.preorder ++ [n.id] }) := by
      simp [Storage.add, hfresh, hie, pyFalsyStr, hfuel, hins, hsd]
    exact ⟨by simp [hadd, hs], by simp [hs], fun _ => hadd⟩
  · have hie : s.nodes.isEmpty = false := by
      cases h : s.nodes with
      | nil => exact absurd h hs
      | cons a l => simp [List.isEmpty]
    have hadd : s.add (some n) none = (some false, s) := by
      simp [Storage.add, hfresh, hie, pyFalsyStr]
    exact ⟨by simp [hadd, hs], fun _ => hadd, fun h => absurd h hs⟩

/-- In the roots branch (no truthy `ids`/`names`, truthy `roots`, guard
passing), `query` folds the per-root results over the de-duplicated,
existence-filtered root list. -/
theorem query_roots_branch (s : Storage) (ids names roots : Option (List String))
    (mn mx : Option Int)
    (hguard : ¬ (s.nodes.isEmpty = true ∨
      (pyTruthyInt mn = true ∧ pyTruthyInt mx = true ∧ mx.getD 0 < mn.getD 0)))
    (hids : pyTruthyList ids = false) (hnames : pyTruthyList names = false)
    (hroots : pyTruthyList roots = true) :
    s.query ids names roots mn mx =
      s.queryRoots (if pyTruthyInt mn then mn.getD 0 else 0)
        (if pyTruthyInt mx then mx.getD 0 else (s.preorder.length : Int))
        ((pyDedup (roots.getD [])).filterMap (fun nid => lookupNode s.nodes nid)) [] := by
  unfold Storage.query
  rw [if_neg hguard]
  simp only [hids, hnames, hroots, Bool.false_eq_true, if_false, if_true]

/-- C10.  A `roots` query with two distinct known ids `a ≠ b` (with no
truthy `ids`/`names` and a passing depth guard) returns exactly the
concatenation, in caller order, of the two per-root subtree results: there
is no de-duplication across roots, so a node contributing once to each
per-root result appears twice in the concatenation.  This covers the case
of one root being an ancestor of the other, where the descendant's subtree
is contained in the ancestor's. -/
theorem c10_roots_concatenated (s : Storage) (a b : String) (na nb : Node)
    (hab : ¬ a = b)
    (ha : lookupNode s.nodes a = some na) (hb : lookupNode s.nodes b = some nb)
    (mn mx : Option Int)
    (hguard : ¬ (s.nodes.isEmpty = true ∨
      (pyTruthyInt mn = true ∧ pyTruthyInt mx = true ∧ mx.getD 0 < mn.getD 0)))
    (ra rb : List Node)
    (hra : s.queryRoot (if pyTruthyInt mn then mn.getD 0 else 0)
      (if pyTruthyInt mx then mx.getD 0 else (s.preorder.length : Int)) na = some ra)
    (hrb : s.queryRoot (if pyTruthyInt mn then mn.getD 0 else 0)
      (if pyTruthyInt mx then mx.getD 0 else (s.preorder.length : Int)) nb = some rb) :
    s.query none none (some [a, b]) mn mx = some (ra ++ rb) ∧
    (∀ x : Node, ra.count x = 1 → rb.count x = 1 → (ra ++ rb).count x = 2) := by
  constructor
  · have hba : ¬ b = a := fun h => hab h.symm
    have hdd : pyDedup [a, b] = [a, b] := by
      simp [pyDedup, pyDedupAux, hba]
    have hfm : (pyDedup [a, b]).filterMap (fun nid => lookupNode s.nodes nid) = [na, nb] := by
      rw [hdd]
      simp [List.filterMap_cons, ha, hb]
    rw [query_roots_branch s none none (some [a, b]) mn mx hguard rfl rfl rfl]
    simp only [Option.getD_some, hfm]
    simp only [Storage.queryRoots, hra, hrb, List.nil_append]
  · intro x h1 h2
    rw [List.count_append, h1, h2]

/-- Witness for C10: on the chain `"1" → "2" → "3"`, the query with roots
`["1", "2"]` returns the root's subtree followed by `"2"`'s subtree, and the
node `"2"` (like `"3"`) appears twice. -/
theorem c10_roots_concatenated_witness :
    chain3.query none none (some ["1", "2"]) none none
        = some ([n1c, n2c, n3c] ++ [n2c, n3c]) ∧
      ([n1c, n2c, n3c] ++ [n2c, n3c]).count n2c = 2 :=
  have h := c10_roots_concatenated chain3 "1" "2" n1c n2c (by decide) rfl rfl
    none none (by decide) [n1c, n2c, n3c] [n2c, n3c] (by decide) (by decide)
  ⟨h.1, h.2 n2c (by decide) (by decide)⟩

/-- Looking up after an in-place node mutation: the entry under the mutated
id has the function applied, all others are untouched. -/
theorem lookupNode_updateNode (m : NMap) (k : String) (f : Node → Node) (x : String) :
    lookupNode (updateNode m k f) x
      = if k = x then (lookupNode m k).map f else lookupNode m x := by
  induction m with
  | nil => simp [updateNode, lookupNode]
  | cons kv rest ih =>
      obtain ⟨a, v⟩ := kv
      by_cases hak : a = k
      · subst hak
        by_cases hax : a = x
        · subst hax
          simp [updateNode, lookupNode]
        · simp [updateNode, lookupNode, hax, ih]
      · by_cases hax : a = x
        · subst hax
          have hka : ¬ k = a := fun h => hak h.symm
          simp [updateNode, lookupNode, hak, hka]
        · simp [updateNode, lookupNode, hak, hax, ih]

/-- A successful lookup designates an entry of the table. -/
theorem lookupNode_mem {m : NMap} {x : String} {n : Node}
    (h : lookupNode m x = some n) : (x, n) ∈ m := by
  induction m with
  | nil => simp [lookupNode] at h
  | cons kv rest ih =>
      obtain ⟨a, v⟩ := kv
      by_cases hax : a = x
      · subst hax
        simp [lookupNode] at h
        exact h ▸ List.mem_cons_self (a, v) rest
      · simp [lookupNode, hax] at h
        exact List.mem_cons_of_mem (a, v) (ih h)

/-- A parent-preserving in-place mutation does not change any parent
field. -/
theorem parentsOf_updateNode (m : NMap) (k : String) (f : Node → Node)
    (hf : ∀ n, (f n).parent = n.parent) (x : String) :
    parentsOf (updateNode m k f) x = parentsOf m x := by
  unfold parentsOf
  rw [lookupNode_updateNode]
  by_cases hkx : k = x
  · subst hkx
    cases lookupNode m k with
    | none => simp
    | some n => simp [hf]
  · simp [hkx]

/-- `set_depth` only changes depth fields: every parent reference is as
before. -/
theorem setDepthAux_parentsOf :
    ∀ (fuel : Nat) (m : NMap) (stack : List (String × Int)) (mr : NMap),
      setDepthAux fuel m stack = some mr → ∀ x, parentsOf mr x = parentsOf m x := by
  intro fuel
  induction fuel with
  | zero =>
      intro m stack mr h x
      cases stack with
      | nil => simp [setDepthAux] at h; rw [h]
      | cons top rest => simp [setDepthAux] at h
  | succ fuel ih =>
      intro m stack mr h x
      cases stack with
      | nil => simp [setDepthAux] at h; rw [h]
      | cons top rest =>
          obtain ⟨nid, d⟩ := top
          unfold setDepthAux at h
          cases hl : lookupNode m nid with
          | none =>
              rw [hl] at h
              exact ih m rest mr h x
          | some node =>
              rw [hl] at h
              have := ih _ _ mr h x
              rw [this, parentsOf_updateNode]
              intro n
              rfl

/-- A chain from a null reference stays null. -/
theorem chainIter_none (m : NMap) : ∀ j, chainIter m j none = none := by
  intro j
  induction j with
  | zero => rfl
  | succ j ih => simpa [chainIter, parentStep] using ih

/-- Reading the parent step out of a `parentsOf` fact. -/
theorem parentStep_of_parentsOf {m : NMap} {x : String} {p : Option String}
    (h : parentsOf m x = some p) : parentStep m (some x) = p := by
  unfold parentsOf at h
  cases hl : lookupNode m x with
  | none => rw [hl] at h; simp at h
  | some n =>
      rw [hl] at h
      simp at h
      simp [parentStep, hl, h]

/-- Equal `parentsOf` values give equal parent steps. -/
theorem parentStep_congr {m m' : NMap} {x : String}
    (h : parentsOf m' x = parentsOf m x) : parentStep m' (some x) = parentStep m (some x) := by
  unfold parentsOf at h
  cases hl : lookupNode m' x with
  | none =>
      rw [hl] at h
      cases hl2 : lookupNode m x with
      | none => simp [parentStep, hl, hl2]
      | some n => rw [hl2] at h; simp at h
  | some n =>
      rw [hl] at h
      cases hl2 : lookupNode m x with
      | none => rw [hl2] at h; simp at h
      | some n2 =>
          rw [hl2] at h
          simp at h
          simp [parentStep, hl, hl2, h]

/-- A completed not-found ancestor walk certifies that the chain from its
start never meets `nid` and terminates. -/
theorem walkHits_false_facts :
    ∀ (fuel : Nat) (m : NMap) (p : Option String) (nid : String),
      walkHits fuel m p nid = some false →
      (∀ j, chainIter m j p ≠ some nid) ∧ (∃ t, chainIter m t p = none) := by
  intro fuel
  induction fuel with
  | zero =>
      intro m p nid h
      cases p with
      | none =>
          refine ⟨fun j => ?_, ⟨0, rfl⟩⟩
          rw [chainIter_none]
          exact fun hx => Option.noConfusion hx
      | some x => simp [walkHits] at h
  | succ fuel ih =>
      intro m p nid h
      cases p with
      | none =>
          refine ⟨fun j => ?_, ⟨0, rfl⟩⟩
          rw [chainIter_none]
          exact fun hx => Option.noConfusion hx
      | some x =>
          unfold walkHits at h
          by_cases hx : x = nid
          · rw [if_pos hx] at h
            exact absurd h (by simp)
          · rw [if_neg hx] at h
            cases hl : lookupNode m x with
            | none => rw [hl] at h; exact absurd h (by simp)
            | some item =>
                rw [hl] at h
                obtain ⟨havoid, t, hterm⟩ := ih m item.parent nid h
                have hps : parentStep m (some x) = item.parent := by
                  simp [parentStep, hl]
                constructor
                · intro j
                  cases j with
                  | zero =>
                      simp [chainIter]
                      exact fun hx2 => hx hx2
                  | succ j =>
                      show chainIter m j (parentStep m (some x)) ≠ some nid
                      rw [hps]
                      exact havoid j
                · refine ⟨t + 1, ?_⟩
                  show chainIter m t (parentStep m (some x)) = none
                  rw [hps]
                  exact hterm

/-- If the chain from `p` reaches `nid` within the fuel budget, the ancestor
walk finds it. -/
theorem walkHits_true_of_chain {m : NMap} {nid : String} :
    ∀ (j : Nat) (fuel : Nat) (p : Option String), j < fuel →
      chainIter m j p = some nid → walkHits fuel m p nid = some true := by
  intro j
  induction j with
  | zero =>
      intro fuel p hj hc
      cases fuel with
      | zero => exact absurd hj (by omega)
      | succ fuel =>
          cases p with
          | none => exact absurd hc (by simp [chainIter])
          | some x =>
              have hx : x = nid := by simpa [chainIter] using hc
              simp [walkHits, hx]
  | succ j ih =>
      intro fuel p hj hc
      cases fuel with
      | zero => exact absurd hj (by omega)
      | succ fuel =>
          cases p with
          | none =>
              rw [show chainIter m (j + 1) none = none from chainIter_none m (j + 1)] at hc
              exact absurd hc (by simp)
          | some x =>
              by_cases hx : x = nid
              · simp [walkHits, hx]
              · have hstep : chainIter m j (parentStep m (some x)) = some nid := hc
                cases hl : lookupNode m x with
                | none =>
                    rw [show parentStep m (some x) = none by simp [parentStep, hl],
                      chainIter_none] at hstep
                    exact absurd hstep (by simp)
                | some item =>
                    rw [show parentStep m (some x) = item.parent by simp [parentStep, hl]]
                      at hstep
                    have := ih fuel item.parent (by omega) hstep
                    simp [walkHits, hx, hl, this]

/-- Chains that avoid the re-parented node compute identically in the old and
the new table. -/
theorem chainIter_congr_of_avoid {m m' : NMap} {nid : String}
    (hstep : ∀ x, ¬ x = nid → parentStep m' (some x) = parentStep m (some x)) :
    ∀ (k : Nat) (p : Option String), (∀ j, chainIter m j p ≠ some nid) →
      chainIter m' k p = chainIter m k p := by
  intro k
  induction k with
  | zero => intro p _; rfl
  | succ k ih =>
      intro p havoid
      cases p with
      | none =>
          rw [chainIter_none, chainIter_none]
      | some x =>
          have hx : ¬ x = nid := by
            intro hx
            exact havoid 0 (by simp [chainIter, hx])
          show chainIter m' k (parentStep m' (some x)) = chainIter m k (parentStep m (some x))
          rw [hstep x hx]
          exact ih (parentStep m (some x)) (fun j => havoid (j + 1))

/-- Re-parenting `nid` under `toId` keeps every parent chain terminating,
provided the chain upward from `toId` terminates without meeting `nid` (the
fact the ancestor walk of `move` checks). -/
theorem grounded_after_reparent {m m' : NMap} {nid toId : String}
    (hg : Grounded m)
    (hpn : parentStep m' (some nid) = some toId)
    (hpo : ∀ x, ¬ x = nid → parentStep m' (some x) = parentStep m (some x))
    (havoid : ∀ j, chainIter m j (some toId) ≠ some nid)
    (hterm : ∃ t, chainIter m t (some toId) = none) :
    Grounded m' := by
  have hto' : ∃ t, chainIter m' t (some toId) = none := by
    obtain ⟨t, ht⟩ := hterm
    exact ⟨t, by rw [chainIter_congr_of_avoid hpo t (some toId) havoid]; exact ht⟩
  have hnid' : ∃ t, chainIter m' t (some nid) = none := by
    obtain ⟨t, ht⟩ := hto'
    refine ⟨t + 1, ?_⟩
    show chainIter m' t (parentStep m' (some nid)) = none
    rw [hpn]
    exact ht
  have main : ∀ (K : Nat) (p : Option String), chainIter m K p = none →
      ∃ k, chainIter m' k p = none := by
    intro K
    induction K with
    | zero =>
        intro p hp
        exact ⟨0, hp⟩
    | succ K ih =>
        intro p hp
        cases p with
        | none => exact ⟨0, rfl⟩
        | some x =>
            by_cases hx : x = nid
            · subst hx
              exact hnid'
            · have hstep : chainIter m K (parentStep m (some x)) = none := hp
              obtain ⟨k, hk⟩ := ih (parentStep m (some x)) hstep
              refine ⟨k + 1, ?_⟩
              show chainIter m' k (parentStep m' (some x)) = none
              rw [hpo x hx]
              exact hk
  intro x
  obtain ⟨K, hK⟩ := hg x
  exact main K (some x) hK

/-- A successful `add_child` sets the child's parent reference to the new
parent and leaves every other parent reference unchanged. -/
theorem addChild_true_parentsOf {fuel : Nat} {m : NMap} {pid cid : String} {m1 : NMap}
    (h : addChild fuel m pid cid = some (true, m1)) :
    parentsOf m1 cid = some (some pid) ∧
    (∀ x, ¬ x = cid → parentsOf m1 x = parentsOf m x) := by
  unfold addChild at h
  split at h
  case h_2 => simp at h
  case h_1 parent child hp hc =>
    split at h
    · simp at h
    · split at h
      case h_1 => simp at h
      case h_2 m3 hsd =>
        simp only [Option.some.injEq, Prod.mk.injEq, true_and] at h
        subst h
        have hshape := setDepthAux_parentsOf fuel _ _ _ hsd
        constructor
        · rw [hshape cid, parentsOf, lookupNode_updateNode, if_pos rfl, lookupNode_updateNode]
          by_cases hpc : pid = cid
          · subst hpc
            rw [if_pos rfl, hp]
            simp
          · rw [if_neg hpc, hc]
            simp
        · intro x hx
          rw [hshape x, parentsOf, lookupNode_updateNode, if_neg (fun hcx => hx hcx.symm),
            lookupNode_updateNode]
          by_cases hpx : pid = x
          · subst hpx
            rw [if_pos rfl, hp, parentsOf, hp]
            simp
          · rw [if_neg hpx]
            rfl

/-- `remove_child` only edits a child list: no parent reference changes. -/
theorem removeChild_parentsOf {m : NMap} {pid cid : String} {force : Bool}
    {b : Bool} {m2 : NMap} (h : removeChild m pid cid force = some (b, m2)) :
    ∀ x, parentsOf m2 x = parentsOf m x := by
  unfold removeChild at h
  split at h
  · simp at h
  case h_2 parent hp =>
    split at h
    · split at h
      case h_1 => simp at h
      case h_2 child hc =>
        split at h
        · simp only [Option.some.injEq, Prod.mk.injEq] at h
          obtain ⟨-, rfl⟩ := h
          intro x
          rfl
        · simp only [Option.some.injEq, Prod.mk.injEq] at h
          obtain ⟨-, rfl⟩ := h
          intro x
          exact parentsOf_updateNode m pid
            (fun p => { p with children := removeFirstByName m p.children child.name })
            (fun n => rfl) x
    · simp only [Option.some.injEq, Prod.mk.injEq] at h
      obtain ⟨-, rfl⟩ := h
      intro x
      rfl

/-- Single-rootedness survives a re-parent that gives `nid` the parent
`toId` and changes no other parent reference. -/
theorem singleRooted_transfer {s : Storage} {m' : NMap} {nid toId : String}
    (hpn : parentsOf m' nid = some (some toId))
    (hpo : ∀ x, ¬ x = nid → parentsOf m' x = parentsOf s.nodes x)
    (hsr : SingleRooted s) :
    ∀ (st : Storage), st.nodes = m' → st.root = s.root → SingleRooted st := by
  intro st hst hrt x n hl hpar
  rw [hst] at hl
  by_cases hx : x = nid
  · subst hx
    have hpx : parentsOf m' x = some n.parent := by
      unfold parentsOf
      rw [hl]
      rfl
    rw [hpn, hpar] at hpx
    simp at hpx
  · have h1 : parentsOf s.nodes x = some n.parent := by
      rw [← hpo x hx]
      unfold parentsOf
      rw [hl]
      rfl
    rw [hpar] at h1
    obtain ⟨n0, hn0, hn0p⟩ := Option.map_eq_some'.mp h1
    rw [hrt]
    exact hsr x n0 hn0 hn0p

/-- `move nid nid` fails without mutation (the very first guard). -/
theorem move_self_fails (s : Storage) (nid toId : String) (h : nid = toId) :
    s.move nid toId = (some false, s) := by
  unfold Storage.move
  rw [if_pos (Or.inr (Or.inr h))]

/-- Moving a node under its current parent fails without mutation. -/
theorem move_to_parent_fails (s : Storage) (nid toId : String) (target : Node)
    (hln : lookupNode s.nodes nid = some target) (hp : target.parent = some toId) :
    s.move nid toId = (some false, s) := by
  unfold Storage.move
  by_cases hg : (lookupNode s.nodes nid).isNone = true ∨
      (lookupNode s.nodes toId).isNone = true ∨ nid = toId
  · rw [if_pos hg]
  · rw [if_neg hg]
    cases hlt : lookupNode s.nodes toId with
    | none => exact absurd (Or.inr (Or.inl (by rw [hlt]; rfl))) hg
    | some toNode => simp [hln, hlt, hp]

/-- Moving a node under a strict descendant (a node whose ancestor chain
reaches `nid` within the store size) fails without mutation: the ancestor
walk finds `nid`. -/
theorem move_to_descendant_fails (s : Storage) (nid toId : String)
    (_hne : ¬ nid = toId) (j : Nat) (hj1 : 1 ≤ j) (hjb : j ≤ s.nodes.length)
    (hchain : chainIter s.nodes j (some toId) = some nid) :
    s.move nid toId = (some false, s) := by
  unfold Storage.move
  by_cases hg : (lookupNode s.nodes nid).isNone = true ∨
      (lookupNode s.nodes toId).isNone = true ∨ nid = toId
  · rw [if_pos hg]
  · rw [if_neg hg]
    cases hln : lookupNode s.nodes nid with
    | none => exact absurd (Or.inl (by rw [hln]; rfl)) hg
    | some target =>
        cases hlt : lookupNode s.nodes toId with
        | none => exact absurd (Or.inr (Or.inl (by rw [hlt]; rfl))) hg
        | some toNode =>
            cases hp : target.parent with
            | none => simp [hln, hlt, hp]
            | some oldP =>
                by_cases hop : oldP = toId
                · simp [hln, hlt, hp, hop]
                · obtain ⟨j', rfl⟩ : ∃ j', j = j' + 1 := ⟨j - 1, by omega⟩
                  have hstep : chainIter s.nodes j' (parentStep s.nodes (some toId))
                      = some nid := hchain
                  rw [show parentStep s.nodes (some toId) = toNode.parent by
                    simp [parentStep, hlt]] at hstep
                  have hw := walkHits_true_of_chain j' s.fuel toNode.parent
                    (by unfold Storage.fuel; omega) hstep
                  simp [hln, hlt, hp, hop, hw]

/-- Whatever `move` returns or raises, every parent chain of the resulting
table still terminates, the `_root` reference is untouched, and
single-rootedness is preserved. -/
theorem move_preserves_structure (s : Storage) (nid toId : String)
    (hg : Grounded s.nodes) (r : Option Bool) (s2 : Storage)
    (h : s.move nid toId = (r, s2)) :
    Grounded s2.nodes ∧ s2.root = s.root ∧ (SingleRooted s → SingleRooted s2) := by
  unfold Storage.move at h
  split at h
  · injection h with h1 h2
    subst h2
    exact ⟨hg, rfl, id⟩
  · rename_i hguard
    split at h
    case h_2 => injection h with h1 h2; subst h2; exact ⟨hg, rfl, id⟩
    case h_1 target toNode hln hlt =>
      split at h
      · injection h with h1 h2; subst h2; exact ⟨hg, rfl, id⟩
      case h_2 oldParentId hp =>
        split at h
        · injection h with h1 h2; subst h2; exact ⟨hg, rfl, id⟩
        · split at h
          case h_1 hwalk => injection h with h1 h2; subst h2; exact ⟨hg, rfl, id⟩
          case h_2 hwalk => injection h with h1 h2; subst h2; exact ⟨hg, rfl, id⟩
          case h_3 hwalk =>
            have hne : ¬ nid = toId := fun hh => hguard (Or.inr (Or.inr hh))
            split at h
            case h_1 hadd => injection h with h1 h2; subst h2; exact ⟨hg, rfl, id⟩
            case h_2 bb hadd => injection h with h1 h2; subst h2; exact ⟨hg, rfl, id⟩
            case h_3 m1 hadd =>
              have hfacts := walkHits_false_facts _ _ _ _ hwalk
              have hpstep : parentStep s.nodes (some toId) = toNode.parent := by
                simp [parentStep, hlt]
              have havoid : ∀ j, chainIter s.nodes j (some toId) ≠ some nid := by
                intro j
                cases j with
                | zero => exact fun hh => hne (Option.some.inj hh).symm
                | succ j =>
                    show chainIter s.nodes j (parentStep s.nodes (some toId)) ≠ some nid
                    rw [hpstep]
                    exact hfacts.1 j
              have hterm : ∃ t, chainIter s.nodes t (some toId) = none := by
                obtain ⟨t, ht⟩ := hfacts.2
                refine ⟨t + 1, ?_⟩
                show chainIter s.nodes t (parentStep s.nodes (some toId)) = none
                rw [hpstep]
                exact ht
              have hm1 := addChild_true_parentsOf hadd
              have hm1g : Grounded m1 :=
                grounded_after_reparent hg (parentStep_of_parentsOf hm1.1)
                  (fun x hx => parentStep_congr (hm1.2 x hx)) havoid hterm
              have hconc1 : ∀ (st : Storage), st.nodes = m1 → st.root = s.root →
                  Grounded st.nodes ∧ st.root = s.root ∧
                    (SingleRooted s → SingleRooted st) :=
                fun st hst hrt =>
                  ⟨hst ▸ hm1g, hrt,
                    fun hsr => singleRooted_transfer hm1.1 hm1.2 hsr st hst hrt⟩
              split at h
              case h_1 hrem =>
                injection h with h1 h2; subst h2; exact hconc1 _ rfl rfl
              case h_2 bb m2 hrem =>
                have hm2p := removeChild_parentsOf hrem
                have hm2pn : parentsOf m2 nid = some (some toId) := (hm2p nid).trans hm1.1
                have hm2po : ∀ x, ¬ x = nid → parentsOf m2 x = parentsOf s.nodes x :=
                  fun x hx => (hm2p x).trans (hm1.2 x hx)
                have hm2g : Grounded m2 :=
                  grounded_after_reparent hg (parentStep_of_parentsOf hm2pn)
                    (fun x hx => parentStep_congr (hm2po x hx)) havoid hterm
                have hconc2 : ∀ (st : Storage), st.nodes = m2 → st.root = s.root →
                    Grounded st.nodes ∧ st.root = s.root ∧
                      (SingleRooted s → SingleRooted st) :=
                  fun st hst hrt =>
                    ⟨hst ▸ hm2g, hrt,
                      fun hsr => singleRooted_transfer hm2pn hm2po hsr st hst hrt⟩
                split at h
                case h_1 =>
                  injection h with h1 h2; subst h2; exact hconc2 _ rfl rfl
                case h_2 target2 hl2 =>
                  split at h
                  case h_1 =>
                    injection h with h1 h2; subst h2; exact hconc2 _ rfl rfl
                  case h_2 =>
                    injection h with h1 h2; subst h2; exact hconc2 _ rfl rfl
                  case h_3 pred hpred =>
                    split at h
                    case h_1 =>
                      injection h with h1 h2; subst h2; exact hconc2 _ rfl rfl
                    case h_2 pi hpi =>
                      unfold Storage.moveSplice at h
                      split at h
                      · split at h
                        case h_1 =>
                          injection h with h1 h2; subst h2; exact hconc2 _ rfl rfl
                        case h_2 =>
                          injection h with h1 h2; subst h2; exact hconc2 _ rfl rfl
                      · split at h
                        case h_1 =>
                          injection h with h1 h2; subst h2; exact hconc2 _ rfl rfl
                        case h_2 lastN hlast =>
                          split at h
                          case h_2 =>
                            injection h with h1 h2; subst h2; exact hconc2 _ rfl rfl
                          case h_1 rs li hrs hli =>
                            split at h
                            · injection h with h1 h2; subst h2; exact hconc2 _ rfl rfl
                            · split at h
                              · injection h with h1 h2; subst h2
                                exact hconc2 _ rfl rfl
                              · injection h with h1 h2; subst h2
                                exact hconc2 _ rfl rfl

/-- C3.  `move` fails and leaves the storage unchanged when the destination
is the target itself, the target's current parent, or any strict descendant
of the target (a node whose ancestor chain reaches the target); and from any
acyclic single-rooted state, whatever `move` does, the parent relation stays
acyclic (every ancestor chain terminates), the root reference is unchanged,
and the store stays single-rooted. -/
theorem c3_move_cycle_and_failure_safety (s : Storage) (nid toId : String) :
    (nid = toId → s.move nid toId = (some false, s)) ∧
    (∀ target, lookupNode s.nodes nid = some target → target.parent = some toId →
      s.move nid toId = (some false, s)) ∧
    (¬ nid = toId → ∀ j, 1 ≤ j → j ≤ s.nodes.length →
      chainIter s.nodes j (some toId) = some nid → s.move nid toId = (some false, s)) ∧
    (Grounded s.nodes → ∀ r s2, s.move nid toId = (r, s2) →
      Grounded s2.nodes ∧ s2.root = s.root ∧ (SingleRooted s → SingleRooted s2)) :=
  ⟨fun h => move_self_fails s nid toId h,
   fun target hln hp => move_to_parent_fails s nid toId target hln hp,
   fun hne j hj1 hjb hchain => move_to_descendant_fails s nid toId hne j hj1 hjb hchain,
   fun hg r s2 h => move_preserves_structure s nid toId hg r s2 h⟩

/-- Bounded concrete chains give groundedness (used to discharge `Grounded`
at concrete stores). -/
theorem grounded_of_chain_bound (m : NMap) (K : Nat)
    (h : ∀ kv ∈ m, chainIter m K (some kv.1) = none) : Grounded m := by
  intro x
  cases hl : lookupNode m x with
  | none =>
      refine ⟨1, ?_⟩
      show chainIter m 0 (parentStep m (some x)) = none
      simp [chainIter, parentStep, hl]
  | some n => exact ⟨K, h (x, n) (lookupNode_mem hl)⟩

/-- Witness for C3 on the chain `"1" → "2" → "3"`: moving `"2"` onto itself,
under its parent `"1"`, or under its descendant `"3"` fails unchanged, and
the structure facts hold for the attempted move. -/
theorem c3_move_cycle_and_failure_safety_witness :
    chain3.move "2" "2" = (some false, chain3) ∧
    chain3.move "2" "1" = (some false, chain3) ∧
    chain3.move "2" "3" = (some false, chain3) ∧
    (Grounded (chain3 : Storage).nodes ∧ chain3.root = chain3.root ∧
      (SingleRooted chain3 → SingleRooted chain3)) :=
  ⟨(c3_move_cycle_and_failure_safety chain3 "2" "2").1 rfl,
   (c3_move_cycle_and_failure_safety chain3 "2" "1").2.1 n2c rfl rfl,
   (c3_move_cycle_and_failure_safety chain3 "2" "3").2.2.1 (by decide) 1 (by decide)
     (by decide) (by decide),
   by
     have hg : Grounded (chain3 : Storage).nodes :=
       grounded_of_chain_bound chain3.nodes 4 (by decide)
     have h3 : chain3.move "2" "3" = (some false, chain3) :=
       (c3_move_cycle_and_failure_safety chain3 "2" "3").2.2.1 (by decide) 1 (by decide)
         (by decide) (by decide)
     exact (c3_move_cycle_and_failure_safety chain3 "2" "3").2.2.2 hg (some false) chain3 h3⟩

/-- Witness for C7 at a fresh node added to the empty store. -/
theorem c7_add_without_parent_witness :
    ((Storage.init.add (some (Node.mk0 "1" "r")) none).1 = some true
        ↔ Storage.init.nodes = []) ∧
    (¬ Storage.init.nodes = [] →
      Storage.init.add (some (Node.mk0 "1" "r")) none = (some false, Storage.init)) ∧
    (Storage.init.nodes = [] →
      Storage.init.add (some (Node.mk0 "1" "r")) none =
        (some true,
          { nodes := [("1", { Node.mk0 "1" "r" with depth := 0 })],
            root := some "1",
            preorder := Storage.init.preorder ++ ["1"] })) :=
  c7_add_without_parent Storage.init (Node.mk0 "1" "r") rfl rfl

end Hapi
